import Mathlib

set_option maxRecDepth 8192

/-!
Shallow embedding of the codecrafters git implementation (src/main.rs,
src/git.rs, src/git/pack.rs, src/git/remote.rs).

Bytes are modelled as `Nat` (Rust strings appear through their UTF-8 bytes,
so a Rust `String`/`&str` is a `List Nat` as well).  External collaborators
(the SHA-1 digest, the zlib codec, the filesystem, the HTTP endpoints) are
abstracted as function parameters, exactly at the boundary the spec draws
in section 6.  Every `bail!`/panic site of the source gets its own
constructor of `GitErr`; Rust panics (out-of-bounds indexing, `todo!()`)
are modelled by the dedicated constructors `oobIndex` and `todoStop`.
-/

/-- One constructor per failure site of the source. -/
inductive GitErr where
  | packTooShort
  | corrupt
  | wrongSignature
  | wrongVersion
  | headerTooShort
  | unknownObjectId
  | sizeOverflow
  | numberTooShort
  | unknownReference
  | wrongOffset
  | oobIndex
  | inflateFailed
  | wrongDeltaCopy
  | wrongDelta
  | unexpectedObjectSize
  | unfinishedDelta
  | invalidHashLength
  | notFound
  | headerNotFound
  | badPktLength
  | parseIntFailed
  | wrongPktLength
  | badMode
  | badUtf8
  | truncatedField
  | notATree
  | notABlob
  | unsupportedType
  | commitNoTree
  | fuelStop
  | todoStop
deriving DecidableEq

/-- Decidable equality for `Except`, so that concrete runs of the model
can be settled by `decide`. -/
instance {ε α : Type _} [DecidableEq ε] [DecidableEq α] : DecidableEq (Except ε α) := fun a b =>
  match a, b with
  | .error x, .error y =>
    if h : x = y then isTrue (congrArg Except.error h)
    else isFalse fun hc => h (Except.error.inj hc)
  | .ok x, .ok y =>
    if h : x = y then isTrue (congrArg Except.ok h)
    else isFalse fun hc => h (Except.ok.inj hc)
  | .error _, .ok _ => isFalse fun hc => Except.noConfusion hc
  | .ok _, .error _ => isFalse fun hc => Except.noConfusion hc

/-! ## Constants (src/git.rs, src/git/pack.rs) -/

def HASH_SIZE : Nat := 20
def HASH_HEX_SIZE : Nat := 40
def SIGNATURE_SIZE : Nat := 4
def PACK_FRAME_SIZE : Nat := SIGNATURE_SIZE + 4 + 4 + HASH_SIZE
def DIRECTORY_MODE : Nat := 16384

def SIGNATURE_BYTES : List Nat := [80, 65, 67, 75]

/-- Big-endian interpretation of a byte list (`Bytes::get_u32`). -/
def be32 (l : List Nat) : Nat := l.foldl (fun a b => a * 256 + b) 0

/-! ## The multibyte (varint) readers of src/git/pack.rs -/

/-- Loop body of `parse_multibyte_number_tail`: `byte` is the byte read last
(its high bit is the continuation flag), `number` the value accumulated so
far, `shift` the shift for the next 7-bit group.  `checked_shl` fails for
shifts of 64 or more; the value accumulates modulo 2^64 (usize). -/
def pmnt_loop (byte number shift : Nat) (parser : List Nat) : Except GitErr (Nat × List Nat) :=
  if byte &&& 128 = 0 then .ok (number, parser)
  else
    match parser with
    | [] => .ok (number, [])
    | b :: rest =>
      if 64 ≤ shift then .error .sizeOverflow
      else pmnt_loop b (number ||| ((b &&& 127) <<< shift) % 2 ^ 64) (shift + 7) rest

/-- `parse_multibyte_number_tail` (src/git/pack.rs lines 163-182). -/
def parse_multibyte_number_tail (first_byte bit_width : Nat) (parser : List Nat) :
    Except GitErr (Nat × List Nat) :=
  pmnt_loop first_byte (first_byte &&& 127) bit_width parser

/-- `parse_multibyte_number` (src/git/pack.rs lines 184-191). -/
def parse_multibyte_number (parser : List Nat) : Except GitErr (Nat × List Nat) :=
  match parser with
  | [] => .error .numberTooShort
  | b :: rest => parse_multibyte_number_tail b 7 rest

/-! ## build_number and the delta patcher (src/git/pack.rs lines 202-253) -/

/-- Core of `build_number`: walk the bit indices `bs` in order; for each set
bit of `mask` consume one byte and or it in at `8 * bit-index`. -/
def build_number_core (mask : Nat) : List Nat → Nat → List Nat → Except GitErr (Nat × List Nat)
  | [], acc, data => .ok (acc, data)
  | b :: bs, acc, data =>
    if mask &&& (1 <<< b) ≠ 0 then
      match data with
      | [] => .error .unfinishedDelta
      | byte :: rest => build_number_core mask bs (acc ||| (byte <<< (8 * b))) rest
    else build_number_core mask bs acc data

/-- `build_number` (src/git/pack.rs lines 237-253). -/
def build_number (mask bit_width : Nat) (data : List Nat) : Except GitErr (Nat × List Nat) :=
  build_number_core mask (List.range bit_width) 0 data

/-- The `while delta.has_remaining()` loop of `patch_content`.  Every
iteration consumes at least the header byte, so fuel `delta.length + 1`
(set by `patch_content`) can never run out; `fuelStop` is unreachable. -/
def patch_go (object : List Nat) : Nat → List Nat → List Nat → Except GitErr (List Nat)
  | 0, _, _ => .error .fuelStop
  | _ + 1, [], acc => .ok acc
  | fuel + 1, header :: rest, acc =>
    if header &&& 128 ≠ 0 then
      match build_number header 4 rest with
      | .error e => .error e
      | .ok (offset, rest1) =>
        match build_number (header >>> 4) 3 rest1 with
        | .error e => .error e
        | .ok (size, rest2) =>
          if offset + size ≤ object.length then
            patch_go object fuel rest2 (acc ++ (object.drop offset).take size)
          else .error .wrongDeltaCopy
    else
      if rest.length < header then .error .wrongDelta
      else patch_go object fuel (rest.drop header) (acc ++ rest.take header)

/-- `patch_content` (src/git/pack.rs lines 202-235). -/
def patch_content (delta : List Nat) (target_size : Nat) (object : List Nat) :
    Except GitErr (List Nat) :=
  match patch_go object (delta.length + 1) delta [] with
  | .error e => .error e
  | .ok c => if c.length ≠ target_size then .error .unexpectedObjectSize else .ok c

/-! ## Specification-side view of a delta instruction stream -/

/-- A decoded delta instruction: copy a range of the base, or insert
literal bytes. -/
inductive Insn where
  | copy (offset size : Nat)
  | insert (bytes : List Nat)
deriving DecidableEq

/-- Decoder of a delta instruction stream into abstract instructions; it
mirrors the stepping of `patch_content` (same `build_number` sub-byte
consumption, same short-insert rejection) but does not touch a base. -/
def decode_go : Nat → List Nat → Option (List Insn)
  | 0, _ => none
  | _ + 1, [] => some []
  | fuel + 1, header :: rest =>
    if header &&& 128 ≠ 0 then
      match build_number header 4 rest with
      | .error _ => none
      | .ok (offset, rest1) =>
        match build_number (header >>> 4) 3 rest1 with
        | .error _ => none
        | .ok (size, rest2) => (decode_go fuel rest2).map (fun is => Insn.copy offset size :: is)
    else
      if rest.length < header then none
      else (decode_go fuel (rest.drop header)).map (fun is => Insn.insert (rest.take header) :: is)

def decodeInsns (delta : List Nat) : Option (List Insn) := decode_go (delta.length + 1) delta

/-- The byte run an instruction contributes to the target. -/
def runInsn (object : List Nat) : Insn → List Nat
  | .copy o s => (object.drop o).take s
  | .insert bs => bs

/-- Concatenation of the copied and inserted byte runs. -/
def applyInsns (object : List Nat) (insns : List Insn) : List Nat :=
  (insns.map (runInsn object)).flatten

/-- All copy instructions stay within the base's bounds. -/
def copiesInRange (object : List Nat) (insns : List Insn) : Bool :=
  insns.all fun i =>
    match i with
    | .copy o s => decide (o + s ≤ object.length)
    | .insert _ => true

/-- Modelled from the spec: the most-significant-group-first, bias
accumulating varint form that section 4.3.d describes for offset-delta
distances (each continuation step computes `((value + 1) <<< 7) ||| low7`). -/
def msbBiased_go (byte value : Nat) (parser : List Nat) : Option (Nat × List Nat) :=
  if byte &&& 128 = 0 then some (value, parser)
  else
    match parser with
    | [] => none
    | c :: rest => msbBiased_go c (((value + 1) <<< 7) ||| (c &&& 127)) rest

/-- Modelled from the spec: entry point of the biased MSB-first varint. -/
def msbBiasedVarint : List Nat → Option (Nat × List Nat)
  | [] => none
  | b :: rest => msbBiased_go b (b &&& 127) rest

/-- Plain least-significant-group-first concatenation of the 7-bit groups
of an encoding, the group of the i-th byte shifted by `shift + 7 * i`. -/
def lsbGroupsFrom : List Nat → Nat → Nat
  | [], _ => 0
  | b :: rest, shift => ((b &&& 127) <<< shift) ||| lsbGroupsFrom rest (shift + 7)

/-- A well-formed varint encoding: all bytes but the last carry the
continuation bit, the last does not. -/
def isVarintEnc : List Nat → Bool
  | [] => false
  | [b] => b &&& 128 == 0
  | b :: rest => (b &&& 128 != 0) && isVarintEnc rest

/-! ## The object codec (src/git.rs) -/

/-- `Object` (src/git.rs lines 46-49). -/
structure Object where
  header : List Nat
  content : List Nat
deriving DecidableEq

/-- Reversed decimal digits of `n` as ASCII bytes; fuel `n + 1` always
suffices because the recursion divides by ten. -/
def decimalDigitsRevGo : Nat → Nat → List Nat
  | 0, _ => []
  | fuel + 1, n => if n < 10 then [48 + n] else (48 + n % 10) :: decimalDigitsRevGo fuel (n / 10)

/-- ASCII bytes of the decimal rendering of `n` (Rust `usize::to_string`). -/
def decimalBytes (n : Nat) : List Nat := (decimalDigitsRevGo (n + 1) n).reverse

/-- `Object::new` (src/git.rs lines 52-62): header is kind, a space, and
the decimal content length. -/
def Object.new (kind content : List Nat) : Object :=
  ⟨kind ++ 32 :: decimalBytes content.length, content⟩

/-- The bytes that are digested and deflated: header, NUL, content. -/
def objectPayload (o : Object) : List Nat := o.header ++ 0 :: o.content

/-- `Object::hash` (src/git.rs lines 117-124), with the SHA-1 collaborator
abstracted as `digest`. -/
def Object.hashB (digest : List Nat → List Nat) (o : Object) : List Nat :=
  digest (objectPayload o)

/-- One hex digit (lowercase, as the hex crate encodes). -/
def hexDigitByte (n : Nat) : Nat := if n < 10 then 48 + n else 87 + n

/-- `hex::encode` on a byte list, as UTF-8 bytes of the hex string. -/
def hexEncode (bytes : List Nat) : List Nat :=
  (bytes.map fun b => [hexDigitByte (b / 16), hexDigitByte (b % 16)]).flatten

def dotGitBytes : List Nat := [46, 103, 105, 116]
def objectsBytes : List Nat := [111, 98, 106, 101, 99, 116, 115]

/-- `object_path` (src/git.rs lines 159-170): reject hex strings that are
not 40 characters, then split at 2/38. -/
def object_path (hash : List Nat) : Except GitErr (List (List Nat)) :=
  if hash.length ≠ 40 then .error .invalidHashLength
  else .ok [dotGitBytes, objectsBytes, hash.take 2, hash.drop 2]

/-- `iter().position(|&b| b == 0)` on a byte list. -/
def position0 : List Nat → Option Nat
  | [] => none
  | b :: rest => if b = 0 then some 0 else (position0 rest).map (· + 1)

/-- `Object::from_hash` (src/git.rs lines 64-80).  The filesystem is the
`store` map from paths to file bytes, zlib inflation is `inflate`.  The
loaded data is split at the first NUL into header and content; note that
the source never recomputes the digest (its own `TODO: verify header`). -/
def Object.from_hash (store : List (List Nat) → Option (List Nat))
    (inflate : List Nat → Except GitErr (List Nat)) (hash : List Nat) :
    Except GitErr Object :=
  match object_path hash with
  | .error e => .error e
  | .ok filepath =>
    match store filepath with
    | none => .error .notFound
    | some bytes =>
      match inflate bytes with
      | .error e => .error e
      | .ok data =>
        match position0 data with
        | none => .error .headerNotFound
        | some i => .ok ⟨data.take i, data.drop (i + 1)⟩

/-- `Object::serialize` (src/git.rs lines 102-115): derive the path from
the hex hash, write the deflated header+NUL+content there, return the
hash together with the updated filesystem. -/
def Object.serializeStore (digest : List Nat → List Nat) (deflate : List Nat → List Nat)
    (o : Object) (store : List (List Nat) → Option (List Nat)) :
    Except GitErr (List Nat × (List (List Nat) → Option (List Nat))) :=
  match object_path (hexEncode (o.hashB digest)) with
  | .error e => .error e
  | .ok filepath =>
    .ok (o.hashB digest, fun p => if p = filepath then some (deflate (objectPayload o)) else store p)

/-- The kind field of a header: everything before the first space
(`header.split(b' ').next()` in `Object::parse`). -/
def kindOf (o : Object) : List Nat := o.header.takeWhile (· != 32)

def blobKind : List Nat := [98, 108, 111, 98]
def treeKind : List Nat := [116, 114, 101, 101]
def commitKind : List Nat := [99, 111, 109, 109, 105, 116]
def tagKind : List Nat := [116, 97, 103]

/-! ## Tree and commit parsing (src/git.rs lines 88-147, 295-305) -/

/-- `TreeEntry` (src/git.rs lines 40-44); the name is kept as raw bytes. -/
structure TreeEntry where
  mode : Nat
  name : List Nat
  hash : List Nat
deriving DecidableEq

/-- `ParsedObject` (src/git.rs lines 19-24). -/
inductive ParsedObject where
  | blob (content : List Nat)
  | commit (tree : List Nat)
  | tag
  | tree (entries : List TreeEntry)
deriving DecidableEq

/-- The numeric value of one digit byte for `from_str_radix` parsing. -/
def digitVal (radix b : Nat) : Option Nat :=
  let d :=
    if 48 ≤ b ∧ b ≤ 57 then some (b - 48)
    else if 97 ≤ b ∧ b ≤ 122 then some (b - 87)
    else if 65 ≤ b ∧ b ≤ 90 then some (b - 55)
    else none
  match d with
  | some v => if v < radix then some v else none
  | none => none

def fromStrRadixGo (radix bound : Nat) : List Nat → Nat → Option Nat
  | [], acc => some acc
  | b :: rest, acc =>
    match digitVal radix b with
    | none => none
    | some d => if bound ≤ acc * radix + d then none else fromStrRadixGo radix bound rest (acc * radix + d)

/-- Rust `from_str_radix` for an unsigned integer type whose first invalid
value is `bound`: optional leading plus sign, at least one digit, all
digits below the radix, overflow rejected. -/
def fromStrRadix (radix bound : Nat) (s : List Nat) : Option Nat :=
  match s with
  | 43 :: rest => if rest = [] then none else fromStrRadixGo radix bound rest 0
  | _ => if s = [] then none else fromStrRadixGo radix bound s 0

/-- `read_field` (src/git.rs lines 141-147): read up to and including the
separator and pop it; when the separator is absent everything is read and
the pop removes the last data byte instead. -/
def read_field (sep : Nat) (data : List Nat) : List Nat × List Nat :=
  let field := data.takeWhile (· != sep)
  if field.length = data.length then (field.dropLast, [])
  else (field, data.drop (field.length + 1))

/-- Loop of `parse_tree` (src/git.rs lines 127-139): mode in octal until a
space, name until NUL (`String::from_utf8` modelled on its ASCII
fragment), then exactly 20 raw hash bytes.  Each iteration consumes at
least one byte, so fuel `data.length + 1` can never run out. -/
def parse_tree_go : Nat → List Nat → Except GitErr (List TreeEntry)
  | 0, _ => .error .fuelStop
  | _ + 1, [] => .ok []
  | fuel + 1, data =>
    match read_field 32 data with
    | (modeField, d1) =>
      match fromStrRadix 8 (2 ^ 32) modeField with
      | none => .error .badMode
      | some mode =>
        match read_field 0 d1 with
        | (nameField, d2) =>
          if nameField.all (· < 128) = false then .error .badUtf8
          else if d2.length < 20 then .error .truncatedField
          else
            match parse_tree_go fuel (d2.drop 20) with
            | .error e => .error e
            | .ok es => .ok (⟨mode, nameField, d2.take 20⟩ :: es)

/-- `parse_tree` (src/git.rs lines 127-139). -/
def parse_tree (data : List Nat) : Except GitErr ParsedObject :=
  (parse_tree_go (data.length + 1) data).map ParsedObject.tree

/-- `parse_commit` (src/git.rs lines 295-305): strip the leading
`tree `-prefix bytes and keep everything up to the first newline
(`String::from_utf8` modelled on its ASCII fragment). -/
def parse_commit (content : List Nat) : Except GitErr (List Nat) :=
  if content.take 5 = [116, 114, 101, 101, 32] then
    let sha := (content.drop 5).takeWhile (· != 10)
    if sha.all (· < 128) then .ok sha else .error .badUtf8
  else .error .commitNoTree

/-- `Object::parse` (src/git.rs lines 88-101). -/
def Object.parseObj (o : Object) : Except GitErr ParsedObject :=
  let kind := kindOf o
  if kind = blobKind then .ok (.blob o.content)
  else if kind = commitKind then (parse_commit o.content).map ParsedObject.commit
  else if kind = tagKind then .ok .tag
  else if kind = treeKind then parse_tree o.content
  else .error .unsupportedType

/-! ## The pack decoder (src/git/pack.rs lines 14-114, 116-161) -/

namespace Pack

/-- `ObjectTypeId` (src/git/pack.rs lines 14-22). -/
inductive ObjectTypeId where
  | commit
  | tree
  | blob
  | tag
  | offsetDelta
  | referenceDelta
deriving DecidableEq

/-- `TryFrom<usize> for ObjectTypeId` (src/git/pack.rs lines 37-51). -/
def typeIdOfNat (v : Nat) : Except GitErr ObjectTypeId :=
  if v = 1 then .ok .commit
  else if v = 2 then .ok .tree
  else if v = 3 then .ok .blob
  else if v = 4 then .ok .tag
  else if v = 6 then .ok .offsetDelta
  else if v = 7 then .ok .referenceDelta
  else .error .unknownObjectId

/-- `ObjectTypeId::to_string` as UTF-8 bytes (src/git/pack.rs lines 24-35). -/
def ObjectTypeId.toBytes : ObjectTypeId → List Nat
  | .commit => [99, 111, 109, 109, 105, 116]
  | .tree => [116, 114, 101, 101]
  | .blob => [98, 108, 111, 98]
  | .tag => [116, 97, 103]
  | .offsetDelta => [111, 102, 115, 95, 100, 101, 108, 116, 97]
  | .referenceDelta => [114, 101, 102, 95, 100, 101, 108, 116, 97]

/-- `parse_object_header` (src/git/pack.rs lines 146-161): type id in bits
4-6 of the first byte, size in bits 0-3 continued by the multibyte tail
(the cleared byte keeps its bit 7 as continuation flag: 143 = !0x70). -/
def parse_object_header (parser : List Nat) : Except GitErr (ObjectTypeId × Nat × List Nat) :=
  match parser with
  | [] => .error .headerTooShort
  | first :: rest =>
    match typeIdOfNat ((first &&& 112) >>> 4) with
    | .error _ => .error .unknownObjectId
    | .ok id =>
      match parse_multibyte_number_tail (first &&& 143) 4 rest with
      | .error e => .error e
      | .ok (size, rest2) => .ok (id, size, rest2)

/-- `unpack_content` (src/git/pack.rs lines 193-200): the zlib collaborator
`inflate` sees all remaining bytes and reports the decompressed content
plus how many compressed bytes it consumed (`total_in`); the parser then
advances by that amount (advancing past the end would panic). -/
def unpack_content (inflate : List Nat → Except GitErr (List Nat × Nat)) (_size : Nat)
    (parser : List Nat) : Except GitErr (List Nat × List Nat) :=
  match inflate parser with
  | .error e => .error e
  | .ok (content, consumed) =>
    if parser.length < consumed then .error .oobIndex
    else .ok (content, parser.drop consumed)

/-- `patch_object` (src/git/pack.rs lines 104-114): inflate the delta,
read the declared source and target sizes, patch, and rebuild the object
with the base's kind (the header up to the first space). -/
def patch_object (inflate : List Nat → Except GitErr (List Nat × Nat)) (object : Object)
    (delta_size : Nat) (parser : List Nat) : Except GitErr (Object × List Nat) :=
  match unpack_content inflate delta_size parser with
  | .error e => .error e
  | .ok (delta, parser2) =>
    match parse_multibyte_number delta with
    | .error e => .error e
    | .ok (_source_size, d1) =>
      match parse_multibyte_number d1 with
      | .error e => .error e
      | .ok (target_size, d2) =>
        match patch_content d2 target_size object.content with
        | .error e => .error e
        | .ok patched => .ok (Object.new (object.header.takeWhile (· != 32)) patched, parser2)

/-- `verify_pack` (src/git/pack.rs lines 116-144): length check, trailing
digest check, signature, version; returns the parser positioned after the
version field. -/
def verify_pack (digest : List Nat → List Nat) (buf : List Nat) : Except GitErr (List Nat) :=
  if buf.length ≤ PACK_FRAME_SIZE then .error .packTooShort
  else if digest (buf.take (buf.length - HASH_SIZE)) ≠ buf.drop (buf.length - HASH_SIZE) then
    .error .corrupt
  else if (buf.take (buf.length - HASH_SIZE)).take SIGNATURE_SIZE ≠ SIGNATURE_BYTES then
    .error .wrongSignature
  else if be32 (((buf.take (buf.length - HASH_SIZE)).drop SIGNATURE_SIZE).take 4) ≠ 2 then
    .error .wrongVersion
  else .ok (((buf.take (buf.length - HASH_SIZE)).drop SIGNATURE_SIZE).drop 4)

/-- The entry loop of `parse` (src/git/pack.rs lines 60-99).  `refToIndex`
is the `ref_to_index` map as an association list (cons = insert, first
match = lookup).  In the offset-delta arm the source indexes
`objects[objects.len() - offset]` after checking only `offset > len`, so a
zero offset indexes one past the end: `objects.get?` returns `none` there
and the Rust panic is modelled as `oobIndex`. -/
def parseEntries (digest : List Nat → List Nat)
    (inflate : List Nat → Except GitErr (List Nat × Nat)) :
    Nat → List Nat → List Object → List (List Nat × Nat) → Except GitErr (List Object)
  | 0, _, objects, _refs => .ok objects
  | n + 1, parser, objects, refToIndex =>
    match parse_object_header parser with
    | .error e => .error e
    | .ok (id, size, parser1) =>
      match id with
      | .offsetDelta =>
        match parse_multibyte_number parser1 with
        | .error e => .error e
        | .ok (offset, parser2) =>
          if offset > objects.length then .error .wrongOffset
          else
            match objects.get? (objects.length - offset) with
            | none => .error .oobIndex
            | some source =>
              match patch_object inflate source size parser2 with
              | .error e => .error e
              | .ok (object, parser3) =>
                parseEntries digest inflate n parser3 (objects ++ [object])
                  ((object.hashB digest, objects.length) :: refToIndex)
      | .referenceDelta =>
        if parser1.length < 20 then .error .oobIndex
        else
          match List.lookup (parser1.take 20) refToIndex with
          | none => .error .unknownReference
          | some index =>
            match objects.get? index with
            | none => .error .oobIndex
            | some source =>
              match patch_object inflate source size (parser1.drop 20) with
              | .error e => .error e
              | .ok (object, parser3) =>
                parseEntries digest inflate n parser3 (objects ++ [object])
                  ((object.hashB digest, objects.length) :: refToIndex)
      | _ =>
        match unpack_content inflate size parser1 with
        | .error e => .error e
        | .ok (content, parser2) =>
          parseEntries digest inflate n parser2 (objects ++ [Object.new id.toBytes content])
            (((Object.new id.toBytes content).hashB digest, objects.length) :: refToIndex)

/-- `parse` (src/git/pack.rs lines 53-102): verify the frame, read the
big-endian object count, then decode that many entries. -/
def parse (digest : List Nat → List Nat) (inflate : List Nat → Except GitErr (List Nat × Nat))
    (pack_buffer : List Nat) : Except GitErr (List Object) :=
  match verify_pack digest pack_buffer with
  | .error e => .error e
  | .ok parser =>
    if parser.length < 4 then .error .oobIndex
    else parseEntries digest inflate (be32 (parser.take 4)) (parser.drop 4) [] []

end Pack

/-! ## The remote client (src/git/remote.rs lines 79-94) -/

namespace Remote

/-- `parse_pkt_line` (src/git/remote.rs lines 79-94): the first four
characters are a hex length; the line is rejected only when the combined
condition of the source holds, which requires a zero declared length. -/
def parse_pkt_line (data : List Nat) : Except GitErr (List Nat) :=
  if data.length < 4 then .error .badPktLength
  else
    match fromStrRadix 16 (2 ^ 64) (data.take 4) with
    | none => .error .parseIntFailed
    | some expected_length =>
      if data.length + 1 ≠ expected_length ∧ (expected_length = 0 ∧ data.length ≠ 4) then
        .error .wrongPktLength
      else .ok (data.drop 4)

end Remote

/-! ## The tree walker (src/git.rs lines 307-338) -/

/-- The filesystem state touched by checkout: the directories created and
the files written.  A file path is a list of components; `checkout_file`
opens the bare entry name, a relative path resolved in the process current
directory, so it records a single-component path. -/
structure FS where
  dirs : List (List (List Nat))
  files : List (List (List Nat) × Nat × List Nat)
deriving DecidableEq

/-- `checkout_file` (src/git.rs lines 324-338): load the blob by the hex
hash of the entry and write its content to the file named by the bare
entry name with the stored mode, truncating/creating. -/
def checkout_file (store : List (List Nat) → Option (List Nat))
    (inflate : List Nat → Except GitErr (List Nat)) (e : TreeEntry) (fs : FS) :
    Except GitErr FS :=
  match Object.from_hash store inflate (hexEncode e.hash) with
  | .error er => .error er
  | .ok o =>
    match Object.parseObj o with
    | .error er => .error er
    | .ok (.blob content) => .ok ⟨fs.dirs, ([e.name], e.mode, content) :: fs.files⟩
    | .ok _ => .error .notABlob

/-- `checkout_tree` (src/git.rs lines 307-322): load the tree, create the
target directory, then walk the entries in order; a directory-mode entry
recurses with the SAME target path, a file entry goes through
`checkout_file`; the first error aborts the loop.  `fuel` bounds the
recursion depth of the model (the source recurses on hashes, which a
cyclic store could make diverge). -/
def checkout_tree (store : List (List Nat) → Option (List Nat))
    (inflate : List Nat → Except GitErr (List Nat)) :
    Nat → List Nat → List (List Nat) → FS → Except GitErr FS
  | 0, _, _, _ => .error .fuelStop
  | fuel + 1, tree_hash, target_path, fs =>
    match Object.from_hash store inflate tree_hash with
    | .error er => .error er
    | .ok o =>
      match Object.parseObj o with
      | .error er => .error er
      | .ok (.tree entries) =>
        entries.foldlM
          (fun fs2 e =>
            if e.mode = DIRECTORY_MODE then
              checkout_tree store inflate fuel (hexEncode e.hash) target_path fs2
            else checkout_file store inflate e fs2)
          ⟨target_path :: fs.dirs, fs.files⟩
      | .ok _ => .error .notATree

/-! ## The clone command (src/main.rs lines 93-109) -/

/-- The `Command::Clone` arm of `Command::run`: discover references, fetch
the pack, decode it, initialize the repository — and then the source hits
`todo!()` (modelled as `todoStop`) with the remaining steps only present
as comments; nothing is persisted, no ref is stored, nothing is checked
out. -/
def clone_run (discover : Except GitErr (List (List Nat × List Nat)))
    (fetch : List (List Nat × List Nat) → Except GitErr (List Nat))
    (digest : List Nat → List Nat) (inflate : List Nat → Except GitErr (List Nat × Nat))
    (initRes : Except GitErr Unit) : Except GitErr Unit :=
  match discover with
  | .error e => .error e
  | .ok refs =>
    match fetch refs with
    | .error e => .error e
    | .ok pack =>
      match Pack.parse digest inflate pack with
      | .error e => .error e
      | .ok _objects =>
        match initRes with
        | .error e => .error e
        | .ok _ => .error .todoStop

/-! ## Supporting lemmas -/

lemma pmnt_loop_done (byte number shift : Nat) (parser : List Nat) (h : byte &&& 128 = 0) :
    pmnt_loop byte number shift parser = .ok (number, parser) := by
  cases parser <;> simp [pmnt_loop, h]

lemma pmnt_loop_enc (rest : List Nat) :
    ∀ (bs : List Nat) (byte shift acc : Nat),
      isVarintEnc (byte :: bs) = true →
      shift + 7 * bs.length ≤ 64 →
      pmnt_loop byte acc shift (bs ++ rest) = .ok (acc ||| lsbGroupsFrom bs shift, rest) := by
  intro bs
  induction bs with
  | nil =>
    intro byte shift acc henc _
    have h0 : byte &&& 128 = 0 := by simpa [isVarintEnc] using henc
    simp [pmnt_loop_done byte acc shift rest h0, lsbGroupsFrom]
  | cons b bs ih =>
    intro byte shift acc henc hb
    rw [show isVarintEnc (byte :: b :: bs) = ((byte &&& 128 != 0) && isVarintEnc (b :: bs)) from rfl,
      Bool.and_eq_true] at henc
    obtain ⟨h1, h2⟩ := henc
    have hcont : ¬ byte &&& 128 = 0 := by simpa using h1
    have hlen : shift + 7 * bs.length ≤ 64 - 7 := by
      simp only [List.length_cons] at hb
      omega
    have hshift : ¬ 64 ≤ shift := by omega
    have hmod : ((b &&& 127) <<< shift) % 2 ^ 64 = (b &&& 127) <<< shift := by
      apply Nat.mod_eq_of_lt
      rw [Nat.shiftLeft_eq]
      calc (b &&& 127) * 2 ^ shift < 2 ^ 7 * 2 ^ shift := by
            exact (Nat.mul_lt_mul_right (by positivity)).mpr
              (lt_of_le_of_lt Nat.and_le_right (by norm_num))
        _ = 2 ^ (7 + shift) := by rw [pow_add]
        _ ≤ 2 ^ 64 := Nat.pow_le_pow_right (by norm_num) (by omega)
    rw [List.cons_append]
    rw [show pmnt_loop byte acc shift (b :: (bs ++ rest)) =
        (if byte &&& 128 = 0 then Except.ok (acc, b :: (bs ++ rest))
         else if 64 ≤ shift then Except.error GitErr.sizeOverflow
         else pmnt_loop b (acc ||| ((b &&& 127) <<< shift) % 2 ^ 64) (shift + 7) (bs ++ rest))
      from rfl]
    rw [if_neg hcont, if_neg hshift, hmod]
    rw [ih b (shift + 7) (acc ||| (b &&& 127) <<< shift) h2 (by omega)]
    simp [lsbGroupsFrom, Nat.or_assoc]

/-! ## Claim C4 -/

/-- C4 counterexample: on the multi-byte encoding 0x81 0x02 the source's
`parse_multibyte_number` yields the plain least-significant-group-first
value 257, while the biased most-significant-group-first varint the claim
describes yields 258. -/
theorem offset_varint_not_msb_biased :
    parse_multibyte_number [129, 2] = .ok (257, []) ∧
      msbBiasedVarint [129, 2] = some (258, []) ∧ (257 : Nat) ≠ 258 := by
  refine ⟨by decide, by decide, by decide⟩

/-- C4 (amended): the backward distance of an offset-delta entry is decoded
by `parse_multibyte_number` as a plain least-significant-group-first
base-128 varint — the same form used for the delta-instruction size
varints — with no bias accumulation: on every well-formed encoding of at
most nine bytes the decoded value is the plain concatenation of the 7-bit
groups, the i-th byte's group shifted by 7 i. -/
theorem parse_multibyte_number_lsb (bs rest : List Nat)
    (henc : isVarintEnc bs = true) (hlen : bs.length ≤ 9) :
    parse_multibyte_number (bs ++ rest) = .ok (lsbGroupsFrom bs 0, rest) := by
  cases bs with
  | nil => simp [isVarintEnc] at henc
  | cons b tail =>
    rw [List.cons_append]
    rw [show parse_multibyte_number (b :: (tail ++ rest)) =
        pmnt_loop b (b &&& 127) 7 (tail ++ rest) from rfl]
    rw [pmnt_loop_enc rest tail b 7 (b &&& 127) henc
      (by simp only [List.length_cons] at hlen; omega)]
    simp [lsbGroupsFrom, Nat.shiftLeft_zero]

/-- C4 witness: the amended statement evaluated on the encoding 0x81 0x02. -/
theorem parse_multibyte_number_lsb_witness :
    isVarintEnc [129, 2] = true ∧
      parse_multibyte_number ([129, 2] ++ []) = .ok (lsbGroupsFrom [129, 2] 0, []) :=
  ⟨by decide, parse_multibyte_number_lsb [129, 2] [] (by decide) (by decide)⟩

/-! ## Claim C9 -/

/-- C9 counterexample: a delta instruction stream beginning with a zero
byte does not make patching fail — the zero byte is consumed as an insert
of zero literal bytes and the empty target is produced. -/
theorem patch_zero_byte_succeeds : patch_content [0] 0 [] = .ok [] := by decide

/-- C9 (amended): a delta instruction byte equal to zero is not rejected;
`patch_content` treats it as an insert of zero literal bytes, so a leading
zero byte leaves the result unchanged. -/
theorem patch_zero_byte_is_noop (rest object : List Nat) (target_size : Nat) :
    patch_content (0 :: rest) target_size object = patch_content rest target_size object := by
  have h : patch_go object (rest.length + 1 + 1) (0 :: rest) [] =
      patch_go object (rest.length + 1) rest [] := by
    simp [patch_go]
  simp only [patch_content, List.length_cons]
  rw [h]

/-! ## Claim C5 -/

/-- C5: a pack whose single entry is an offset-delta with encoded backward
distance d = 0 passes the `offset > objects.len()` guard and then indexes
`objects[objects.len() - 0]`, one past the end of the arena — the Rust
panic (modelled as `oobIndex`) instead of an UnresolvedDelta-style error
or a valid base index. -/
theorem offset_delta_zero_distance_oob :
    Pack.parse (fun _ => List.replicate 20 7) (fun _ => .error .inflateFailed)
        ([80, 65, 67, 75, 0, 0, 0, 2, 0, 0, 0, 1, 96, 0] ++ List.replicate 20 7) =
      .error .oobIndex := by
  decide

/-! ## Claim C1 -/

/-- C1: the Clone command never completes the pipeline the claim
describes. Whatever the discovery response, the fetched pack, the digest
and zlib collaborators and the init outcome are, `clone_run` ends in an
error; in particular, when discovery, fetch, pack decoding (here: a valid
empty pack) and init all succeed, it stops at the source's `todo!()`
(`todoStop`) — no object is persisted, no ref is stored (the existing
`store_references` is never called), and no tree is checked out. -/
theorem clone_reaches_todo :
    (∀ (discover : Except GitErr (List (List Nat × List Nat)))
        (fetch : List (List Nat × List Nat) → Except GitErr (List Nat))
        (digest : List Nat → List Nat) (inflate : List Nat → Except GitErr (List Nat × Nat))
        (initRes : Except GitErr Unit),
        ∃ e, clone_run discover fetch digest inflate initRes = .error e) ∧
      clone_run (.ok [([48], [114])])
        (fun _ => .ok ([80, 65, 67, 75, 0, 0, 0, 2, 0, 0, 0, 0, 9] ++ List.replicate 20 3))
        (fun _ => List.replicate 20 3) (fun _ => .error .inflateFailed) (.ok ()) =
        .error .todoStop := by
  constructor
  · intro discover fetch digest inflate initRes
    rcases h : clone_run discover fetch digest inflate initRes with e | u
    · exact ⟨e, rfl⟩
    · exfalso
      unfold clone_run at h
      split at h
      · exact Except.noConfusion h
      split at h
      · exact Except.noConfusion h
      split at h
      · exact Except.noConfusion h
      split at h
      · exact Except.noConfusion h
      · exact Except.noConfusion h
  · decide

/-! ## Claim C2 -/

/-- C2: whenever a pack buffer holds at least the fixed frame and the
recomputed digest of everything before the trailing 20 bytes differs from
those trailing 20 bytes, `Pack.parse` fails with the Corrupt error before
any entry is parsed or object emitted; and an object list is only ever
returned when `verify_pack` (digest, signature and version checks, in that
order) succeeded first. -/
theorem pack_digest_checked_first (digest : List Nat → List Nat)
    (inflate : List Nat → Except GitErr (List Nat × Nat)) (buf : List Nat) :
    (PACK_FRAME_SIZE < buf.length →
      digest (buf.take (buf.length - HASH_SIZE)) ≠ buf.drop (buf.length - HASH_SIZE) →
      Pack.parse digest inflate buf = .error .corrupt) ∧
    ∀ objs, Pack.parse digest inflate buf = .ok objs →
      ∃ rest, Pack.verify_pack digest buf = .ok rest := by
  constructor
  · intro h1 h2
    have hv : Pack.verify_pack digest buf = .error .corrupt := by
      unfold Pack.verify_pack
      rw [if_neg (not_le.mpr h1), if_pos h2]
    unfold Pack.parse
    rw [hv]
  · intro objs h
    rcases hv : Pack.verify_pack digest buf with e | rest
    · unfold Pack.parse at h
      rw [hv] at h
      cases h
    · exact ⟨rest, rfl⟩

/-- C2 witness: a 33-byte buffer of ones whose digest collaborator returns
zeroes — the digest check fails and parsing reports the corruption. -/
theorem pack_digest_checked_first_witness :
    Pack.parse (fun _ => List.replicate 20 0) (fun _ => .error .inflateFailed)
        (List.replicate 33 1) = .error .corrupt :=
  (pack_digest_checked_first (fun _ => List.replicate 20 0) (fun _ => .error .inflateFailed)
      (List.replicate 33 1)).1 (by decide) (by decide)

/-! ## Claim C10 -/

/-- C10: when the first four characters of a pkt-line parse as a non-zero
hex length, `parse_pkt_line` returns the payload after the prefix even if
the declared length disagrees with the actual line length; the
length-mismatch rejection fires exactly in the zero-declared-length case
with a line that is not exactly four characters. -/
theorem parse_pkt_line_length_check (data : List Nat) (v : Nat)
    (hlen : 4 ≤ data.length) (hv : fromStrRadix 16 (2 ^ 64) (data.take 4) = some v) :
    (v ≠ 0 → Remote.parse_pkt_line data = .ok (data.drop 4)) ∧
    (Remote.parse_pkt_line data = .error .wrongPktLength ↔ v = 0 ∧ data.length ≠ 4) := by
  have hred : Remote.parse_pkt_line data =
      if data.length + 1 ≠ v ∧ (v = 0 ∧ data.length ≠ 4) then Except.error GitErr.wrongPktLength
      else Except.ok (data.drop 4) := by
    unfold Remote.parse_pkt_line
    rw [if_neg (by omega), hv]
  rw [hred]
  constructor
  · intro hvne
    rw [if_neg fun hc => hvne hc.2.1]
  · by_cases hcond : data.length + 1 ≠ v ∧ (v = 0 ∧ data.length ≠ 4)
    · rw [if_pos hcond]
      simp [hcond.2]
    · rw [if_neg hcond]
      constructor
      · intro h
        exact Except.noConfusion h
      · rintro ⟨h0, h4⟩
        exact absurd ⟨by omega, h0, h4⟩ hcond

/-- C10 witness: the line 0005ab declares length 5 but is 6 characters
long; the payload ab is still returned without error. -/
theorem parse_pkt_line_length_check_witness :
    Remote.parse_pkt_line [48, 48, 48, 53, 97, 98] = .ok [97, 98] :=
  (parse_pkt_line_length_check [48, 48, 48, 53, 97, 98] 5 (by decide) (by decide)).1 (by decide)

/-! ## Claim C3 -/

lemma build_number_core_length :
    ∀ (bs : List Nat) (mask acc : Nat) (data : List Nat) (n : Nat) (rem : List Nat),
      build_number_core mask bs acc data = .ok (n, rem) → rem.length ≤ data.length := by
  intro bs
  induction bs with
  | nil =>
    intro mask acc data n rem h
    rw [show build_number_core mask [] acc data = .ok (acc, data) from rfl] at h
    injection h with h2
    injection h2 with _ h3
    rw [← h3]
  | cons b bs ih =>
    intro mask acc data n rem h
    by_cases hm : mask &&& (1 <<< b) ≠ 0
    · cases data with
      | nil => simp [build_number_core, hm] at h
      | cons byte rest =>
        simp only [build_number_core] at h
        rw [if_pos hm] at h
        have := ih mask (acc ||| (byte <<< (8 * b))) rest n rem h
        simp only [List.length_cons]
        omega
    · have heq : build_number_core mask (b :: bs) acc data = build_number_core mask bs acc data := by
        cases data <;> simp [build_number_core, hm]
      rw [heq] at h
      exact ih mask acc data n rem h

lemma build_number_length (mask w : Nat) (data : List Nat) (n : Nat) (rem : List Nat)
    (h : build_number mask w data = .ok (n, rem)) : rem.length ≤ data.length :=
  build_number_core_length (List.range w) mask 0 data n rem h

lemma patch_go_step (object : List Nat) (fuel : Nat) (header : Nat) (rest acc : List Nat) :
    patch_go object (fuel + 1) (header :: rest) acc =
      if header &&& 128 ≠ 0 then
        match build_number header 4 rest with
        | .error e => .error e
        | .ok (offset, rest1) =>
          match build_number (header >>> 4) 3 rest1 with
          | .error e => .error e
          | .ok (size, rest2) =>
            if offset + size ≤ object.length then
              patch_go object fuel rest2 (acc ++ (object.drop offset).take size)
            else .error .wrongDeltaCopy
      else
        if rest.length < header then .error .wrongDelta
        else patch_go object fuel (rest.drop header) (acc ++ rest.take header) := rfl

lemma decode_go_step (fuel : Nat) (header : Nat) (rest : List Nat) :
    decode_go (fuel + 1) (header :: rest) =
      if header &&& 128 ≠ 0 then
        match build_number header 4 rest with
        | .error _ => none
        | .ok (offset, rest1) =>
          match build_number (header >>> 4) 3 rest1 with
          | .error _ => none
          | .ok (size, rest2) => (decode_go fuel rest2).map (fun is => Insn.copy offset size :: is)
      else
        if rest.length < header then none
        else (decode_go fuel (rest.drop header)).map (fun is => Insn.insert (rest.take header) :: is) := rfl

/-- The patch loop agrees with the instruction-stream view: an undecodable
stream makes it fail, a decodable stream with an out-of-range copy makes
it fail, and a decodable stream whose copies are all in range appends
exactly the concatenated byte runs to the accumulator. -/
lemma patch_decode (object : List Nat) :
    ∀ (fuel : Nat) (delta : List Nat), delta.length < fuel → ∀ acc : List Nat,
      (decode_go fuel delta = none → ∃ e, patch_go object fuel delta acc = .error e) ∧
      ∀ insns, decode_go fuel delta = some insns →
        (copiesInRange object insns = false → ∃ e, patch_go object fuel delta acc = .error e) ∧
        (copiesInRange object insns = true →
          patch_go object fuel delta acc = .ok (acc ++ applyInsns object insns)) := by
  intro fuel
  induction fuel with
  | zero => intro delta h; omega
  | succ fuel ih =>
    intro delta hlen acc
    cases delta with
    | nil =>
      refine ⟨fun h => Option.noConfusion h, fun insns h => ?_⟩
      have h' : some ([] : List Insn) = some insns := h
      obtain rfl := Option.some.inj h'
      refine ⟨fun hfalse => absurd hfalse (by simp [copiesInRange]), fun _ => ?_⟩
      simp [patch_go, applyInsns]
    | cons header rest =>
      have hrest : rest.length < fuel := by
        simp only [List.length_cons] at hlen
        omega
      by_cases hc : header &&& 128 ≠ 0
      · rcases hb1 : build_number header 4 rest with e1 | ⟨offset, rest1⟩
        · refine ⟨fun _ => ⟨e1, ?_⟩, fun insns h => ?_⟩
          · simp only [patch_go_step, if_pos hc, hb1]
          · rw [decode_go_step, if_pos hc, hb1] at h
            exact Option.noConfusion h
        · rcases hb2 : build_number (header >>> 4) 3 rest1 with e2 | ⟨size, rest2⟩
          · refine ⟨fun _ => ⟨e2, ?_⟩, fun insns h => ?_⟩
            · simp only [patch_go_step, if_pos hc, hb1, hb2]
            · simp only [decode_go_step, if_pos hc, hb1, hb2] at h
              exact Option.noConfusion h
          · have hr2 : rest2.length < fuel :=
              lt_of_le_of_lt
                (le_trans (build_number_length _ _ _ _ _ hb2) (build_number_length _ _ _ _ _ hb1))
                hrest
            have hdstep : decode_go (fuel + 1) (header :: rest) =
                (decode_go fuel rest2).map (fun is => Insn.copy offset size :: is) := by
              simp only [decode_go_step, if_pos hc, hb1, hb2]
            by_cases ho : offset + size ≤ object.length
            · have hpstep : patch_go object (fuel + 1) (header :: rest) acc =
                  patch_go object fuel rest2 (acc ++ (object.drop offset).take size) := by
                simp only [patch_go_step, if_pos hc, hb1, hb2, if_pos ho]
              rw [hpstep, hdstep]
              rcases hd : decode_go fuel rest2 with _ | tail
              · refine ⟨fun _ => (ih rest2 hr2 _).1 hd, fun insns h => ?_⟩
                exact Option.noConfusion h
              · refine ⟨fun h => ?_, fun insns h => ?_⟩
                · exact Option.noConfusion h
                · have h' : some (Insn.copy offset size :: tail) = some insns := h
                  obtain rfl := Option.some.inj h'
                  refine ⟨fun hfalse => ?_, fun htrue => ?_⟩
                  · have htail : copiesInRange object tail = false := by
                      simpa [copiesInRange, ho] using hfalse
                    exact ((ih rest2 hr2 _).2 tail hd).1 htail
                  · have htail : copiesInRange object tail = true := by
                      simpa [copiesInRange, ho] using htrue
                    rw [((ih rest2 hr2 (acc ++ (object.drop offset).take size)).2 tail hd).2 htail]
                    simp [applyInsns, runInsn, List.append_assoc]
            · have hpstep : patch_go object (fuel + 1) (header :: rest) acc =
                  .error .wrongDeltaCopy := by
                simp only [patch_go_step, if_pos hc, hb1, hb2, if_neg ho]
              rw [hpstep, hdstep]
              rcases hd : decode_go fuel rest2 with _ | tail
              · exact ⟨fun _ => ⟨_, rfl⟩, fun insns h => Option.noConfusion h⟩
              · refine ⟨fun _ => ⟨_, rfl⟩, fun insns h => ?_⟩
                have h' : some (Insn.copy offset size :: tail) = some insns := h
                obtain rfl := Option.some.inj h'
                refine ⟨fun _ => ⟨_, rfl⟩, fun htrue => ?_⟩
                exfalso
                simp [copiesInRange] at htrue
                exact ho htrue.1
      · by_cases hs : rest.length < header
        · have hpstep : patch_go object (fuel + 1) (header :: rest) acc = .error .wrongDelta := by
            simp only [patch_go_step, if_neg hc, if_pos hs]
          have hdstep : decode_go (fuel + 1) (header :: rest) = none := by
            simp only [decode_go_step, if_neg hc, if_pos hs]
          rw [hpstep, hdstep]
          exact ⟨fun _ => ⟨_, rfl⟩, fun insns h => Option.noConfusion h⟩
        · have hdrop : (rest.drop header).length < fuel := by
            rw [List.length_drop]
            omega
          have hpstep : patch_go object (fuel + 1) (header :: rest) acc =
              patch_go object fuel (rest.drop header) (acc ++ rest.take header) := by
            simp only [patch_go_step, if_neg hc, if_neg hs]
          have hdstep : decode_go (fuel + 1) (header :: rest) =
              (decode_go fuel (rest.drop header)).map
                (fun is => Insn.insert (rest.take header) :: is) := by
            simp only [decode_go_step, if_neg hc, if_neg hs]
          rw [hpstep, hdstep]
          rcases hd : decode_go fuel (rest.drop header) with _ | tail
          · refine ⟨fun _ => (ih _ hdrop _).1 hd, fun insns h => ?_⟩
            exact Option.noConfusion h
          · refine ⟨fun h => ?_, fun insns h => ?_⟩
            · exact Option.noConfusion h
            · have h' : some (Insn.insert (rest.take header) :: tail) = some insns := h
              obtain rfl := Option.some.inj h'
              refine ⟨fun hfalse => ?_, fun htrue => ?_⟩
              · have htail : copiesInRange object tail = false := by
                  simpa [copiesInRange] using hfalse
                exact ((ih _ hdrop _).2 tail hd).1 htail
              · have htail : copiesInRange object tail = true := by
                  simpa [copiesInRange] using htrue
                rw [((ih _ hdrop (acc ++ rest.take header)).2 tail hd).2 htail]
                simp [applyInsns, runInsn, List.append_assoc]

/-- C3: on any base, delta instruction stream and declared target size,
`patch_content` fails whenever the stream is undecodable (a short insert
or truncated copy sub-bytes), whenever a decoded copy instruction's
offset+size range exceeds the base's bounds, and whenever the
concatenated byte runs differ in length from the declared target size; in
the remaining case it returns exactly the concatenation of the copied and
inserted byte runs, whose length then equals the declared target size. -/
theorem patch_content_copy_insert_spec (object delta : List Nat) (target_size : Nat) :
    (decodeInsns delta = none → ∃ e, patch_content delta target_size object = .error e) ∧
    ∀ insns, decodeInsns delta = some insns →
      (copiesInRange object insns = false →
        ∃ e, patch_content delta target_size object = .error e) ∧
      (copiesInRange object insns = true → (applyInsns object insns).length ≠ target_size →
        patch_content delta target_size object = .error .unexpectedObjectSize) ∧
      (copiesInRange object insns = true → (applyInsns object insns).length = target_size →
        patch_content delta target_size object = .ok (applyInsns object insns)) := by
  have h := patch_decode object (delta.length + 1) delta (Nat.lt_succ_self _) []
  constructor
  · intro hnone
    obtain ⟨e, hp⟩ := h.1 hnone
    refine ⟨e, ?_⟩
    unfold patch_content
    simp only [hp]
  · intro insns hsome
    have h2 := h.2 insns hsome
    refine ⟨?_, ?_, ?_⟩
    · intro hfalse
      obtain ⟨e, hp⟩ := h2.1 hfalse
      refine ⟨e, ?_⟩
      unfold patch_content
      simp only [hp]
    · intro htrue hne
      have hp := h2.2 htrue
      unfold patch_content
      simp only [hp, List.nil_append]
      rw [if_pos hne]
    · intro htrue heq
      have hp := h2.2 htrue
      unfold patch_content
      simp only [hp, List.nil_append]
      rw [if_neg fun hx => hx heq]

/-- C3 witness: the stream insert-one-byte-65 with base [] and declared
target size 1 decodes, stays in range, and patches to exactly that run. -/
theorem patch_content_copy_insert_spec_witness :
    decodeInsns [1, 65] = some [Insn.insert [65]] ∧
      patch_content [1, 65] 1 [] = .ok (applyInsns [] [Insn.insert [65]]) :=
  ⟨by decide,
    (((patch_content_copy_insert_spec [] [1, 65] 1).2 [Insn.insert [65]] (by decide)).2.2
      (by decide) (by decide))⟩

/-! ## Claim C6 -/

lemma decimalDigitsRevGo_bounds :
    ∀ (fuel n d : Nat), d ∈ decimalDigitsRevGo fuel n → 48 ≤ d ∧ d ≤ 57 := by
  intro fuel
  induction fuel with
  | zero => intro n d h; simp [decimalDigitsRevGo] at h
  | succ fuel ih =>
    intro n d h
    by_cases hn : n < 10
    · simp [decimalDigitsRevGo, hn] at h
      omega
    · simp [decimalDigitsRevGo, hn] at h
      rcases h with h | h
      · have : n % 10 < 10 := Nat.mod_lt _ (by norm_num)
        omega
      · exact ih (n / 10) d h

lemma decimalBytes_bounds (n d : Nat) (h : d ∈ decimalBytes n) : 48 ≤ d ∧ d ≤ 57 :=
  decimalDigitsRevGo_bounds (n + 1) n d (List.mem_reverse.mp h)

lemma hexEncode_length (l : List Nat) : (hexEncode l).length = 2 * l.length := by
  induction l with
  | nil => simp [hexEncode]
  | cons b l ih =>
    simp only [hexEncode, List.map_cons, List.flatten_cons, List.length_append,
      List.length_cons, List.length_nil] at ih ⊢
    omega

lemma take_len_append (l r : List Nat) : (l ++ r).take l.length = l := by
  induction l with
  | nil => simp
  | cons a l ih => simp [ih]

lemma drop_len_succ_append (l r : List Nat) (x : Nat) :
    (l ++ x :: r).drop (l.length + 1) = r := by
  induction l with
  | nil => simp
  | cons a l ih => simp [ih]

lemma position0_sep (l r : List Nat) (h : ∀ x ∈ l, x ≠ 0) :
    position0 (l ++ 0 :: r) = some l.length := by
  induction l with
  | nil => simp [position0]
  | cons a l ih =>
    have ha : a ≠ 0 := h a (List.mem_cons_self a l)
    have ih2 := ih fun x hx => h x (List.mem_cons_of_mem a hx)
    simp [position0, ha, ih2]

lemma takeWhile_append_sep (l r : List Nat) (h : ∀ x ∈ l, x ≠ 32) :
    (l ++ 32 :: r).takeWhile (· != 32) = l := by
  induction l with
  | nil => simp [List.takeWhile]
  | cons a l ih =>
    have ha : (a != 32) = true := by
      simpa using h a (List.mem_cons_self a l)
    have ih2 := ih fun x hx => h x (List.mem_cons_of_mem a hx)
    simp [List.takeWhile, ha, ih2]

lemma header_no_zero (kind content : List Nat) (hk : ∀ x ∈ kind, x ≠ 0) :
    ∀ x ∈ (Object.new kind content).header, x ≠ 0 := by
  intro x hx
  simp only [Object.new, List.mem_append, List.mem_cons] at hx
  rcases hx with hx | hx | hx
  · exact hk x hx
  · omega
  · have := decimalBytes_bounds content.length x hx
    omega

/-- Loading from a store that maps the derived path to bytes inflating to
header, NUL, content recovers that header and content. -/
lemma from_hash_payload (inflate2 : List Nat → Except GitErr (List Nat))
    (store2 : List (List Nat) → Option (List Nat)) (hex bytes hdr cont : List Nat)
    (hlen : hex.length = 40)
    (hsto : store2 [dotGitBytes, objectsBytes, hex.take 2, hex.drop 2] = some bytes)
    (hinf : inflate2 bytes = .ok (hdr ++ 0 :: cont))
    (hhdr : ∀ x ∈ hdr, x ≠ 0) :
    Object.from_hash store2 inflate2 hex = .ok ⟨hdr, cont⟩ := by
  have hpath : object_path hex = .ok [dotGitBytes, objectsBytes, hex.take 2, hex.drop 2] := by
    unfold object_path
    rw [if_neg fun hx => hx hlen]
  simp only [Object.from_hash, hpath, hsto, hinf, position0_sep hdr cont hhdr,
    take_len_append, drop_len_succ_append]

/-- C6: serializing an object of any of the four kinds and loading it back
by the returned hash (through any digest of 20-byte output and any zlib
pair that round-trips on the written bytes) recovers exactly the original
content, and the loaded object's kind field equals the original kind. -/
theorem load_after_serialize (digest : List Nat → List Nat) (deflate : List Nat → List Nat)
    (inflate : List Nat → Except GitErr (List Nat)) (kind content : List Nat)
    (store : List (List Nat) → Option (List Nat))
    (hkind : kind = blobKind ∨ kind = treeKind ∨ kind = commitKind ∨ kind = tagKind)
    (hdig : (digest (objectPayload (Object.new kind content))).length = 20)
    (hinf : inflate (deflate (objectPayload (Object.new kind content))) =
      .ok (objectPayload (Object.new kind content))) :
    ∃ hash store2,
      Object.serializeStore digest deflate (Object.new kind content) store = .ok (hash, store2) ∧
      ∃ o, Object.from_hash store2 inflate (hexEncode hash) = .ok o ∧
        o.content = content ∧ kindOf o = kind := by
  have hk0 : ∀ x ∈ kind, x ≠ 0 := by
    rcases hkind with rfl | rfl | rfl | rfl <;> decide
  have hk32 : ∀ x ∈ kind, x ≠ 32 := by
    rcases hkind with rfl | rfl | rfl | rfl <;> decide
  have hlen40 : (hexEncode ((Object.new kind content).hashB digest)).length = 40 := by
    rw [Object.hashB, hexEncode_length, hdig]
  have hpath : object_path (hexEncode ((Object.new kind content).hashB digest)) =
      .ok [dotGitBytes, objectsBytes,
        (hexEncode ((Object.new kind content).hashB digest)).take 2,
        (hexEncode ((Object.new kind content).hashB digest)).drop 2] := by
    unfold object_path
    rw [if_neg fun hx => hx hlen40]
  refine ⟨(Object.new kind content).hashB digest,
    fun p =>
      if p = [dotGitBytes, objectsBytes,
          (hexEncode ((Object.new kind content).hashB digest)).take 2,
          (hexEncode ((Object.new kind content).hashB digest)).drop 2] then
        some (deflate (objectPayload (Object.new kind content)))
      else store p,
    ?_, ⟨(Object.new kind content).header, content⟩, ?_, rfl, ?_⟩
  · simp only [Object.serializeStore, hpath]
  · refine from_hash_payload inflate _ _ (deflate (objectPayload (Object.new kind content)))
      (Object.new kind content).header content hlen40 (by simp) hinf
      (header_no_zero kind content hk0)
  · show ((Object.new kind content).header.takeWhile (· != 32)) = kind
    rw [show (Object.new kind content).header =
        kind ++ 32 :: decimalBytes content.length from rfl]
    exact takeWhile_append_sep _ _ hk32

/-- C6 witness: kind blob, content the two bytes hi, a constant 20-byte
digest, identity deflate/inflate and an empty starting store. -/
theorem load_after_serialize_witness :
    ∃ hash store2,
      Object.serializeStore (fun _ => List.replicate 20 171) (fun x => x)
          (Object.new blobKind [104, 105]) (fun _ => none) = .ok (hash, store2) ∧
      ∃ o, Object.from_hash store2 (fun x => .ok x) (hexEncode hash) = .ok o ∧
        o.content = [104, 105] ∧ kindOf o = blobKind :=
  load_after_serialize (fun _ => List.replicate 20 171) (fun x => x) (fun x => .ok x)
    blobKind [104, 105] (fun _ => none) (Or.inl rfl) (by decide) rfl

/-! ## Claim C7 -/

/-- C7 counterexample: a store whose file at the path derived from a hash
of forty a-characters holds a blob whose recomputed digest (here a
constant zero digest collaborator, whose hex is forty zero-characters)
cannot match that path's hash — yet `from_hash` returns the object instead
of failing: the source never recomputes the digest (its
`TODO: verify header`). -/
theorem from_hash_accepts_mismatched_object :
    Object.from_hash
        (fun p => if p = [dotGitBytes, objectsBytes, [97, 97], List.replicate 38 97] then
            some [98, 108, 111, 98, 32, 49, 0, 120] else none)
        (fun x => .ok x) (List.replicate 40 97) =
      .ok ⟨[98, 108, 111, 98, 32, 49], [120]⟩ ∧
    hexEncode ((fun _ => List.replicate 20 0) (objectPayload ⟨[98, 108, 111, 98, 32, 49], [120]⟩)) ≠
      List.replicate 40 97 := by
  refine ⟨by decide, by decide⟩

/-- C7 (amended): loading an object performs no digest verification at
all: `from_hash` succeeds exactly when the hash string has length 40, the
store holds bytes at the derived path, inflation succeeds and the data
contains a NUL separator — the loaded bytes' digest is never recomputed
or compared with the hash the path was derived from, so a tampered object
is returned rather than rejected. -/
theorem from_hash_no_digest_verification (store : List (List Nat) → Option (List Nat))
    (inflate : List Nat → Except GitErr (List Nat)) (hash : List Nat) (o : Object) :
    Object.from_hash store inflate hash = .ok o ↔
      hash.length = 40 ∧ ∃ bytes data i,
        store [dotGitBytes, objectsBytes, hash.take 2, hash.drop 2] = some bytes ∧
        inflate bytes = .ok data ∧ position0 data = some i ∧
        o = ⟨data.take i, data.drop (i + 1)⟩ := by
  by_cases hl : hash.length = 40
  · have hpath : object_path hash = .ok [dotGitBytes, objectsBytes, hash.take 2, hash.drop 2] := by
      unfold object_path
      rw [if_neg fun hx => hx hl]
    rcases hs : store [dotGitBytes, objectsBytes, hash.take 2, hash.drop 2] with _ | bytes
    · have hfh : Object.from_hash store inflate hash = .error .notFound := by
        simp only [Object.from_hash, hpath, hs]
      rw [hfh]
      constructor
      · intro h
        exact Except.noConfusion h
      · rintro ⟨_, bytes2, data2, i2, hsb, _⟩
        exact Option.noConfusion hsb
    · rcases hi : inflate bytes with e | data
      · have hfh : Object.from_hash store inflate hash = .error e := by
          simp only [Object.from_hash, hpath, hs, hi]
        rw [hfh]
        constructor
        · intro h
          exact Except.noConfusion h
        · rintro ⟨_, bytes2, data2, i2, hsb, hib, _⟩
          obtain rfl := Option.some.inj hsb
          rw [hi] at hib
          exact Except.noConfusion hib
      · rcases hp : position0 data with _ | i
        · have hfh : Object.from_hash store inflate hash = .error .headerNotFound := by
            simp only [Object.from_hash, hpath, hs, hi, hp]
          rw [hfh]
          constructor
          · intro h
            exact Except.noConfusion h
          · rintro ⟨_, bytes2, data2, i2, hsb, hib, hpi, _⟩
            obtain rfl := Option.some.inj hsb
            rw [hi] at hib
            obtain rfl := Except.ok.inj hib
            rw [hp] at hpi
            exact Option.noConfusion hpi
        · have hfh : Object.from_hash store inflate hash =
              .ok ⟨data.take i, data.drop (i + 1)⟩ := by
            simp only [Object.from_hash, hpath, hs, hi, hp]
          rw [hfh]
          constructor
          · intro h
            exact ⟨hl, bytes, data, i, rfl, hi, hp, (Except.ok.inj h).symm⟩
          · rintro ⟨_, bytes2, data2, i2, hsb, hib, hpi, ho⟩
            obtain rfl := Option.some.inj hsb
            rw [hi] at hib
            obtain rfl := Except.ok.inj hib
            rw [hp] at hpi
            obtain rfl := Option.some.inj hpi
            rw [ho]
  · have hpath2 : object_path hash = .error .invalidHashLength := by
      unfold object_path
      rw [if_pos hl]
    have hfh : Object.from_hash store inflate hash = .error .invalidHashLength := by
      simp only [Object.from_hash, hpath2]
    rw [hfh]
    constructor
    · intro h
      exact Except.noConfusion h
    · rintro ⟨h40, _⟩
      exact absurd h40 hl

/-- C7 witness for the amended characterization: a concrete store, the
identity inflate, and a 40-character hash load the stored tree object. -/
theorem from_hash_no_digest_verification_witness :
    Object.from_hash
        (fun p => if p = [dotGitBytes, objectsBytes, [98, 98], List.replicate 38 98] then
            some [116, 114, 101, 101, 32, 48, 0] else none)
        (fun x => .ok x) (List.replicate 40 98) = .ok ⟨[116, 114, 101, 101, 32, 48], []⟩ :=
  (from_hash_no_digest_verification _ _ _ _).mpr
    ⟨by decide, [116, 114, 101, 101, 32, 48, 0], [116, 114, 101, 101, 32, 48, 0], 6,
      by decide, rfl, by decide, by decide⟩

/-! ## Claim C8 -/

/-- Root tree object bytes (the working store keeps inflated files, the
inflate collaborator below is the identity): kind tree, one entry of mode
40000 named sub whose hash is twenty 0xbb bytes. -/
def rootTreeDataC8 : List Nat :=
  [116, 114, 101, 101, 32, 51, 48] ++
    0 :: ([52, 48, 48, 48, 48, 32, 115, 117, 98, 0] ++ List.replicate 20 187)

/-- Subdirectory tree object bytes: one file entry of mode 100644 named
a.txt whose blob hash is twenty 0xcc bytes. -/
def subTreeDataC8 : List Nat :=
  [116, 114, 101, 101, 32, 51, 51] ++
    0 :: ([49, 48, 48, 54, 52, 52, 32, 97, 46, 116, 120, 116, 0] ++ List.replicate 20 204)

/-- Blob object bytes: content is the single byte x. -/
def blobDataC8 : List Nat := [98, 108, 111, 98, 32, 49, 0, 120]

/-- The object store of the C8 scenario, keyed by the derived paths of
the hex hashes aa…a, bb…b and cc…c. -/
def storeC8 : List (List Nat) → Option (List Nat) := fun p =>
  if p = [dotGitBytes, objectsBytes, [97, 97], List.replicate 38 97] then some rootTreeDataC8
  else if p = [dotGitBytes, objectsBytes, [98, 98], List.replicate 38 98] then some subTreeDataC8
  else if p = [dotGitBytes, objectsBytes, [99, 99], List.replicate 38 99] then some blobDataC8
  else none

/-- C8: checking out the root tree (a directory entry sub containing
a.txt) into the target directory repo does not materialize the entries
beneath the target: the recursion reuses the SAME target path (the only
directory ever created is repo itself, no repo/sub), and the file is
written at the bare single-component path a.txt — resolved in the process
current directory, outside the target directory — instead of
repo/sub/a.txt. -/
theorem checkout_tree_flattens_failing_case :
    checkout_tree storeC8 (fun x => .ok x) 3 (List.replicate 40 97) [[114, 101, 112, 111]]
        ⟨[], []⟩ =
      .ok ⟨[[[114, 101, 112, 111]], [[114, 101, 112, 111]]],
        [([[97, 46, 116, 120, 116]], 33188, [120])]⟩ ∧
    [[114, 101, 112, 111], [115, 117, 98]] ∉
      ([[[114, 101, 112, 111]], [[114, 101, 112, 111]]] : List (List (List Nat))) ∧
    ∀ pr ∈ ([([[97, 46, 116, 120, 116]], 33188, [120])] :
        List (List (List Nat) × Nat × List Nat)), pr.1.length = 1 := by
  refine ⟨by decide, by decide, by decide⟩
